import Mathlib

/- Shallow embedding of celespy/astro/astrofunc.py (the crossing-time search
   engine `getTransit` and its wrappers, plus `getTime` and `getSrc`).

   Modelling conventions:
   * Instants and durations for the transit search are rationals measured in
     seconds (the source steps by astropy TimeDelta values of 1800 s, 300 s
     and 5 s; TimeDelta(1, format='jd') is 86400 s).
   * The external astropy alt-az transform, `getAltaz(source, t, loc)`, is
     abstracted as a channel function f : ℚ → ℚ × ℚ giving
     (az.deg, alt.deg) at an instant; the source/location/time resolution
     performed at the top of getTransit (getTime/getLoc/getSrc) is folded
     into f and into the start instant.
   * Python while-loops are unfolded with an explicit fuel counter: the
     `running` outcome means the loop is still executing after that many
     iterations.  The loop guards of the source, which compare the mutated
     loop variable against itself plus a horizon (`while time <= time +
     ...`), are embedded verbatim.
   * The Python str.lower() method is embedded as an ASCII lower-casing
     function `lowerStr`. -/

namespace Celespy

/-- ASCII lower-casing of a character, as Python str.lower() acts on the
ASCII strings used by the source. -/
def lowerChar (c : Char) : Char :=
  if c.toNat ≥ 65 ∧ c.toNat ≤ 90 then Char.ofNat (c.toNat + 32) else c

/-- Python str.lower() for the ASCII strings used by the source. -/
def lowerStr (s : String) : String := String.mk (s.data.map lowerChar)

theorem lowerStr_rise : lowerStr "rise" = "rise" := rfl

theorem lowerStr_set : lowerStr "set" = "set" := rfl

theorem lowerStr_tomorrow : lowerStr "tomorrow" = "tomorrow" := rfl

theorem lowerStr_yesterday : lowerStr "yesterday" = "yesterday" := rfl

theorem lowerStr_jd : lowerStr "jd" = "jd" := rfl

theorem lowerStr_mjd : lowerStr "mjd" = "mjd" := rfl

theorem lowerStr_deg : lowerStr "deg" = "deg" := rfl

/-- The body of each of the three search loops of getTransit, lines 246-259,
267-280 and 286-299 of astrofunc.py (the three loops repeat the same
if/elif chain verbatim, with their own step `dt`):

  if (az is not None) & (el is None):
      c1 = getAltaz(source, time, loc).az.deg
      c2 = getAltaz(source, time+dt, loc).az.deg
      if (c1 <= az <= c2): break
  elif (el is not None) & (az is None):
      c1 = getAltaz(source, time, loc).alt.deg
      c2 = getAltaz(source, time+dt, loc).alt.deg
      if way.lower() == 'rise':
          if (c1 <= el <= c2): break
      elif way.lower() == 'set':
          if (c2 <= el <= c1): break

`some true` means the loop breaks at this step, `some false` that it steps
on, and `none` that neither branch of the if/elif chain applies (both or
neither of az/el set); the coarse loop then raises ValueError, while the
mid and fine loops, which have no else clause, simply step on. -/
def stepTest (f : ℚ → ℚ × ℚ) (az el : Option ℚ) (way : String) (dt t : ℚ) :
    Option Bool :=
  match az, el with
  | some A, none => some (decide ((f t).1 ≤ A ∧ A ≤ (f (t + dt)).1))
  | none, some E =>
      if lowerStr way = "rise" then
        some (decide ((f t).2 ≤ E ∧ E ≤ (f (t + dt)).2))
      else if lowerStr way = "set" then
        some (decide ((f (t + dt)).2 ≤ E ∧ E ≤ (f t).2))
      else some false
  | _, _ => none

/-- Outcome of the coarse search loop (lines 244-262). -/
inductive CoarseOutcome
  | exit (t : ℚ)
  | invalid
  | running (t : ℚ)
deriving DecidableEq

/-- The coarse loop, lines 245-262:
  bigdt = TimeDelta(1800, format='sec')
  while time <= time + TimeDelta(1, format='jd'):
      <stepTest with dt = 1800; break / raise ValueError in the else case>
      time += bigdt
The guard compares the mutated `time` against itself plus one day, exactly
as in the source. -/
def coarseLoop (f : ℚ → ℚ × ℚ) (az el : Option ℚ) (way : String) :
    Nat → ℚ → CoarseOutcome
  | 0, t => .running t
  | Nat.succ fuel, t =>
      if t ≤ t + (86400 : ℚ) then
        match stepTest f az el way 1800 t with
        | none => .invalid
        | some true => .exit t
        | some false => coarseLoop f az el way fuel (t + 1800)
      else .exit t

/-- Outcome of a refinement loop (the mid and fine loops never raise). -/
inductive RefOutcome
  | exit (t : ℚ)
  | running (t : ℚ)
deriving DecidableEq

/-- The mid loop (lines 265-281, horizon = bigdt = 1800, dt = middt = 300)
and the fine loop (lines 284-300, horizon = middt = 300, dt = smalldt = 5):
  while time <= time + horizon:
      <stepTest with step dt; break on success, nothing in the else case>
      time += dt
The guard compares the mutated `time` against itself plus the horizon,
exactly as in the source. -/
def refineLoop (f : ℚ → ℚ × ℚ) (az el : Option ℚ) (way : String)
    (horizon dt : ℚ) : Nat → ℚ → RefOutcome
  | 0, t => .running t
  | Nat.succ fuel, t =>
      if t ≤ t + horizon then
        match stepTest f az el way dt t with
        | some true => .exit t
        | _ => refineLoop f az el way horizon dt fuel (t + dt)
      else .exit t

/-- Result of getTransit: the returned Time, or one of the two exceptions
the function can raise (AssertionError from line 241, ValueError from line
261), or `diverged` when a while loop is still running after the given
number of iterations. -/
inductive TransitOutcome
  | ok (t : ℚ)
  | assertError
  | valueError
  | diverged (t : ℚ)
deriving DecidableEq

/-- getTransit, lines 205-302.  The resolution preamble (getTime, getLoc,
getSrc) is folded into the channel f and the start instant `time`; then:
  assert (way.lower() == 'rise') or (way.lower() == 'set')
  <coarse loop, step 1800>
  <mid loop, horizon 1800, step 300>
  <fine loop, horizon 300, step 5>
  return time + smalldt/2. -/
def getTransit (f : ℚ → ℚ × ℚ) (time : ℚ) (az el : Option ℚ) (way : String)
    (fuel : Nat) : TransitOutcome :=
  if lowerStr way = "rise" ∨ lowerStr way = "set" then
    match coarseLoop f az el way fuel time with
    | .invalid => .valueError
    | .running t => .diverged t
    | .exit t1 =>
        match refineLoop f az el way 1800 300 fuel t1 with
        | .running t => .diverged t
        | .exit t2 =>
            match refineLoop f az el way 300 5 fuel t2 with
            | .running t => .diverged t
            | .exit t3 => .ok (t3 + 5 / 2)
  else .assertError

/-- riseTime, lines 333-340: getTransit with el=0, way='rise'. -/
def riseTime (f : ℚ → ℚ × ℚ) (time : ℚ) (fuel : Nat) : TransitOutcome :=
  getTransit f time none (some 0) "rise" fuel

/-- setTime, lines 371-378: getTransit with el=0, way='set'. -/
def setTime (f : ℚ → ℚ × ℚ) (time : ℚ) (fuel : Nat) : TransitOutcome :=
  getTransit f time none (some 0) "set" fuel

/-- meridianTime, lines 409-415: getTransit with az=180 and the default
way='rise'. -/
def meridianTime (f : ℚ → ℚ × ℚ) (time : ℚ) (fuel : Nat) : TransitOutcome :=
  getTransit f time (some 180) none "rise" fuel

/-- The three kinds of `time` argument getTime handles: an astropy Time
object, a string, or a number (int/float/np.number). -/
inductive TimeInput
  | timeObj (t : ℚ)
  | str (s : String)
  | num (x : ℚ)

/-- Offset between Julian and Modified Julian Date: jd = mjd + 2400000.5. -/
def mjdOffset : ℚ := 4800001 / 2

/-- getTime, lines 165-199.  An astropy Time value is modelled as a
rational Julian-day number; `now` is the value of Time.now();
`parseStr` models the astropy Time(str) constructor for absolute
timestamps (None = parsing raises).  A numeric input is passed to
Time(time, format=unit.lower()) with unit defaulting to 'jd'; formats
other than 'jd'/'mjd' are outside the model. -/
def getTime (now : ℚ) (parseStr : String → Option ℚ) (time : TimeInput)
    (unit : Option String) : Option ℚ :=
  match time with
  | .timeObj t => some t
  | .str s =>
      if lowerStr s = "now" then some now
      else if lowerStr s = "tomorrow" then some (now + 1)
      else if lowerStr s = "yesterday" then some (now - 1)
      else parseStr s
  | .num x =>
      let u := lowerStr (unit.getD "jd")
      if u = "jd" then some x
      else if u = "mjd" then some (x + mjdOffset)
      else none

/-- The three kinds of `source` argument getSrc handles: a string, a
length-2 tuple of coordinates, or an astropy SkyCoord object. -/
inductive SrcInput
  | name (s : String)
  | pair (radec : ℚ × ℚ)
  | skyCoordObj (ra dec : ℚ)

/-- Result of getSrc: a SkyCoord, a Python NameError (unbound local
variable), a failure of the external name resolver, or the ValueError of
the final else branch. -/
inductive SrcResult
  | skyCoord (ra dec : ℚ)
  | nameError
  | resolutionError
  | valueError
deriving DecidableEq

/-- getSrc, lines 78-115.  The string branch (solar-system bodies via
get_body, otherwise SkyCoord.from_name) is an external lookup, abstracted
as `resolveName`; np.degrees is abstracted as `degreesFn`.  The tuple
branch is embedded exactly:
  elif isinstance(source, tuple):
      assert len(source)==2
      if not unit.lower() == 'deg':
          ra, dec = np.degrees(source)
      src = coord.SkyCoord(ra*u.deg, dec*u.deg, frame='icrs')
The locals ra/dec are bound only on the non-'deg' branch, modelled by an
Option that is `none` exactly when Python would raise NameError at the
SkyCoord construction. -/
def getSrc (resolveName : String → SrcResult) (degreesFn : ℚ × ℚ → ℚ × ℚ)
    (source : SrcInput) (unit : String) : SrcResult :=
  match source with
  | .name s => resolveName s
  | .pair p =>
      let bound : Option (ℚ × ℚ) :=
        if ¬ lowerStr unit = "deg" then some (degreesFn p) else none
      match bound with
      | some (ra, dec) => .skyCoord ra dec
      | none => .nameError
  | .skyCoordObj ra dec => .skyCoord ra dec

/-- A sample channel whose azimuth and elevation both grow linearly:
used to exercise the engine on concrete queries. -/
def lin : ℚ → ℚ × ℚ := fun t => (t, t)

/-- A sample channel constantly at azimuth 0 and elevation -10: a source
that never reaches the horizon, so an el=0 query has no crossing. -/
def constLow : ℚ → ℚ × ℚ := fun _ => (0, -10)

/- ------------------------------------------------------------------ -/
/- Loop unfolding lemmas.                                             -/
/- ------------------------------------------------------------------ -/

theorem coarseLoop_succ_true (f : ℚ → ℚ × ℚ) (az el : Option ℚ) (way : String)
    (m : ℕ) (t : ℚ) (hst : stepTest f az el way 1800 t = some true) :
    coarseLoop f az el way (m + 1) t = .exit t := by
  simp [coarseLoop, hst, le_add_of_nonneg_right (by norm_num : (0:ℚ) ≤ 86400)]

theorem coarseLoop_succ_false (f : ℚ → ℚ × ℚ) (az el : Option ℚ) (way : String)
    (m : ℕ) (t : ℚ) (hst : stepTest f az el way 1800 t = some false) :
    coarseLoop f az el way (m + 1) t = coarseLoop f az el way m (t + 1800) := by
  simp [coarseLoop, hst, le_add_of_nonneg_right (by norm_num : (0:ℚ) ≤ 86400)]

theorem coarseLoop_succ_none (f : ℚ → ℚ × ℚ) (az el : Option ℚ) (way : String)
    (m : ℕ) (t : ℚ) (hst : stepTest f az el way 1800 t = none) :
    coarseLoop f az el way (m + 1) t = .invalid := by
  simp [coarseLoop, hst, le_add_of_nonneg_right (by norm_num : (0:ℚ) ≤ 86400)]

theorem refineLoop_succ_true (f : ℚ → ℚ × ℚ) (az el : Option ℚ) (way : String)
    (H dt : ℚ) (hH : 0 ≤ H) (m : ℕ) (t : ℚ)
    (hst : stepTest f az el way dt t = some true) :
    refineLoop f az el way H dt (m + 1) t = .exit t := by
  simp [refineLoop, hst, le_add_of_nonneg_right hH]

theorem refineLoop_succ_false (f : ℚ → ℚ × ℚ) (az el : Option ℚ) (way : String)
    (H dt : ℚ) (hH : 0 ≤ H) (m : ℕ) (t : ℚ)
    (hst : stepTest f az el way dt t = some false) :
    refineLoop f az el way H dt (m + 1) t = refineLoop f az el way H dt m (t + dt) := by
  simp [refineLoop, hst, le_add_of_nonneg_right hH]

theorem refineLoop_succ_none (f : ℚ → ℚ × ℚ) (az el : Option ℚ) (way : String)
    (H dt : ℚ) (hH : 0 ≤ H) (m : ℕ) (t : ℚ)
    (hst : stepTest f az el way dt t = none) :
    refineLoop f az el way H dt (m + 1) t = refineLoop f az el way H dt m (t + dt) := by
  simp [refineLoop, hst, le_add_of_nonneg_right hH]

/- ------------------------------------------------------------------ -/
/- getTransit unfolding lemmas.                                       -/
/- ------------------------------------------------------------------ -/

theorem getTransit_assert (f : ℚ → ℚ × ℚ) (time : ℚ) (az el : Option ℚ)
    (way : String) (fuel : ℕ)
    (hw : ¬(lowerStr way = "rise" ∨ lowerStr way = "set")) :
    getTransit f time az el way fuel = .assertError := by
  unfold getTransit
  rw [if_neg hw]

theorem getTransit_invalid (f : ℚ → ℚ × ℚ) (time : ℚ) (az el : Option ℚ)
    (way : String) (fuel : ℕ)
    (hw : lowerStr way = "rise" ∨ lowerStr way = "set")
    (hc : coarseLoop f az el way fuel time = .invalid) :
    getTransit f time az el way fuel = .valueError := by
  unfold getTransit
  rw [if_pos hw, hc]

theorem getTransit_coarse_running (f : ℚ → ℚ × ℚ) (time : ℚ) (az el : Option ℚ)
    (way : String) (fuel : ℕ) (t : ℚ)
    (hw : lowerStr way = "rise" ∨ lowerStr way = "set")
    (hc : coarseLoop f az el way fuel time = .running t) :
    getTransit f time az el way fuel = .diverged t := by
  unfold getTransit
  rw [if_pos hw, hc]

theorem getTransit_mid_running (f : ℚ → ℚ × ℚ) (time : ℚ) (az el : Option ℚ)
    (way : String) (fuel : ℕ) (t1 t : ℚ)
    (hw : lowerStr way = "rise" ∨ lowerStr way = "set")
    (hc : coarseLoop f az el way fuel time = .exit t1)
    (hm : refineLoop f az el way 1800 300 fuel t1 = .running t) :
    getTransit f time az el way fuel = .diverged t := by
  simp [getTransit, hw, hc, hm]

theorem getTransit_fine_running (f : ℚ → ℚ × ℚ) (time : ℚ) (az el : Option ℚ)
    (way : String) (fuel : ℕ) (t1 t2 t : ℚ)
    (hw : lowerStr way = "rise" ∨ lowerStr way = "set")
    (hc : coarseLoop f az el way fuel time = .exit t1)
    (hm : refineLoop f az el way 1800 300 fuel t1 = .exit t2)
    (hf : refineLoop f az el way 300 5 fuel t2 = .running t) :
    getTransit f time az el way fuel = .diverged t := by
  simp [getTransit, hw, hc, hm, hf]

theorem getTransit_ok (f : ℚ → ℚ × ℚ) (time : ℚ) (az el : Option ℚ)
    (way : String) (fuel : ℕ) (t1 t2 t3 : ℚ)
    (hw : lowerStr way = "rise" ∨ lowerStr way = "set")
    (hc : coarseLoop f az el way fuel time = .exit t1)
    (hm : refineLoop f az el way 1800 300 fuel t1 = .exit t2)
    (hf : refineLoop f az el way 300 5 fuel t2 = .exit t3) :
    getTransit f time az el way fuel = .ok (t3 + 5 / 2) := by
  simp [getTransit, hw, hc, hm, hf]

/- ------------------------------------------------------------------ -/
/- Discrete intermediate-value chains: a bracket over n equal steps
   contains a bracket over a single step.                             -/
/- ------------------------------------------------------------------ -/

theorem chain_up (g : ℚ → ℚ) (A t dt : ℚ) (n : ℕ) (hn : 0 < n)
    (h1 : g t ≤ A) (h2 : A ≤ g (t + (n : ℚ) * dt)) :
    ∃ k : ℕ, k < n ∧ g (t + (k : ℚ) * dt) ≤ A ∧
      A ≤ g (t + ((k : ℚ) + 1) * dt) := by
  by_contra hc
  push_neg at hc
  have key : ∀ k : ℕ, k ≤ n → g (t + (k : ℚ) * dt) ≤ A := by
    intro k
    induction k with
    | zero => intro _; simpa using h1
    | succ m ih =>
        intro hk
        have hmn : m < n := Nat.lt_of_succ_le hk
        have hlt := hc m hmn (ih (Nat.le_of_lt hmn))
        have heq : t + ((m : ℚ) + 1) * dt = t + ((m + 1 : ℕ) : ℚ) * dt := by
          push_cast
          ring
        rw [heq] at hlt
        exact le_of_lt hlt
  obtain ⟨m, rfl⟩ : ∃ m, n = m + 1 := ⟨n - 1, (Nat.succ_pred_eq_of_pos hn).symm⟩
  have hlast := hc m (Nat.lt_succ_self m) (key m (Nat.le_succ m))
  have heq : t + ((m : ℚ) + 1) * dt = t + ((m + 1 : ℕ) : ℚ) * dt := by
    push_cast
    ring
  rw [heq] at hlast
  exact absurd h2 (not_le.mpr hlast)

theorem chain_down (g : ℚ → ℚ) (A t dt : ℚ) (n : ℕ) (hn : 0 < n)
    (h1 : A ≤ g t) (h2 : g (t + (n : ℚ) * dt) ≤ A) :
    ∃ k : ℕ, k < n ∧ g (t + ((k : ℚ) + 1) * dt) ≤ A ∧
      A ≤ g (t + (k : ℚ) * dt) := by
  obtain ⟨k, hk, hu1, hu2⟩ :=
    chain_up (fun s => -g s) (-A) t dt n hn (by simpa) (by simpa)
  exact ⟨k, hk, by simpa using hu2, by simpa using hu1⟩

/-- A step pair accepted at step `n * dt` contains an accepted step pair at
step `dt`, within the same window: the discrete intermediate-value argument
applies to all three forms of the crossing test. -/
theorem stepTest_refine (f : ℚ → ℚ × ℚ) (az el : Option ℚ) (way : String)
    (dt : ℚ) (n : ℕ) (hn : 0 < n) (t : ℚ)
    (hb : stepTest f az el way ((n : ℚ) * dt) t = some true) :
    ∃ k : ℕ, k < n ∧ stepTest f az el way dt (t + (k : ℚ) * dt) = some true := by
  rcases az with _ | A
  · rcases el with _ | E
    · simp [stepTest] at hb
    · by_cases hr : lowerStr way = "rise"
      · simp only [stepTest, hr, if_pos, Option.some.injEq, if_true,
          decide_eq_true_eq] at hb
        obtain ⟨k, hk, hg1, hg2⟩ :=
          chain_up (fun s => (f s).2) E t dt n hn hb.1 hb.2
        refine ⟨k, hk, ?_⟩
        have heq : t + ((k : ℚ) + 1) * dt = t + (k : ℚ) * dt + dt := by ring
        rw [heq] at hg2
        simp [stepTest, hr, hg1, hg2]
      · by_cases hs : lowerStr way = "set"
        · simp only [stepTest, hs, String.reduceEq, reduceIte,
            Option.some.injEq, decide_eq_true_eq] at hb
          obtain ⟨k, hk, hg1, hg2⟩ :=
            chain_down (fun s => (f s).2) E t dt n hn hb.2 hb.1
          refine ⟨k, hk, ?_⟩
          have heq : t + ((k : ℚ) + 1) * dt = t + (k : ℚ) * dt + dt := by ring
          rw [heq] at hg1
          simp [stepTest, hr, hs, hg1, hg2]
        · simp [stepTest, hr, hs] at hb
  · rcases el with _ | E
    · simp only [stepTest, Option.some.injEq, decide_eq_true_eq] at hb
      obtain ⟨k, hk, hg1, hg2⟩ :=
        chain_up (fun s => (f s).1) A t dt n hn hb.1 hb.2
      refine ⟨k, hk, ?_⟩
      have heq : t + ((k : ℚ) + 1) * dt = t + (k : ℚ) * dt + dt := by ring
      rw [heq] at hg2
      simp [stepTest, hg1, hg2]
    · simp [stepTest] at hb

/- ------------------------------------------------------------------ -/
/- Behaviour of the loops.                                            -/
/- ------------------------------------------------------------------ -/

/-- If the test succeeds at the n-th step position, a refinement loop with
more than n iterations of fuel breaks at the first succeeding position,
which is at most n steps in. -/
theorem refineLoop_exits (f : ℚ → ℚ × ℚ) (az el : Option ℚ) (way : String)
    (H dt : ℚ) (hH : 0 ≤ H) :
    ∀ fuel : ℕ, ∀ t : ℚ, ∀ n : ℕ, n < fuel →
      stepTest f az el way dt (t + (n : ℚ) * dt) = some true →
      ∃ k : ℕ, k ≤ n ∧
        refineLoop f az el way H dt fuel t = .exit (t + (k : ℚ) * dt) ∧
        stepTest f az el way dt (t + (k : ℚ) * dt) = some true := by
  intro fuel
  induction fuel with
  | zero => intro t n hn; exact absurd hn (Nat.not_lt_zero n)
  | succ m ih =>
      intro t n hn hT
      rcases hst : stepTest f az el way dt t with _ | b
      · have hn0 : n ≠ 0 := by
          intro h0
          rw [h0] at hT
          simp only [Nat.cast_zero, zero_mul, add_zero] at hT
          rw [hst] at hT
          exact Option.noConfusion hT
        obtain ⟨p, rfl⟩ : ∃ p, n = p + 1 :=
          ⟨n - 1, (Nat.succ_pred_eq_of_pos (Nat.pos_of_ne_zero hn0)).symm⟩
        have hT' : stepTest f az el way dt (t + dt + (p : ℚ) * dt) = some true := by
          have heq : t + dt + (p : ℚ) * dt = t + ((p + 1 : ℕ) : ℚ) * dt := by
            push_cast
            ring
          rw [heq]
          exact hT
        obtain ⟨k, hk, hex, hstk⟩ :=
          ih (t + dt) p (Nat.lt_of_succ_lt_succ hn) hT'
        refine ⟨k + 1, Nat.succ_le_succ hk, ?_, ?_⟩
        · rw [refineLoop_succ_none f az el way H dt hH m t hst, hex]
          congr 1
          push_cast
          ring
        · have heq : t + ((k + 1 : ℕ) : ℚ) * dt = t + dt + (k : ℚ) * dt := by
            push_cast
            ring
          rw [heq]
          exact hstk
      · cases b
        · have hn0 : n ≠ 0 := by
            intro h0
            rw [h0] at hT
            simp only [Nat.cast_zero, zero_mul, add_zero] at hT
            rw [hst] at hT
            simp at hT
          obtain ⟨p, rfl⟩ : ∃ p, n = p + 1 :=
            ⟨n - 1, (Nat.succ_pred_eq_of_pos (Nat.pos_of_ne_zero hn0)).symm⟩
          have hT' : stepTest f az el way dt (t + dt + (p : ℚ) * dt) = some true := by
            have heq : t + dt + (p : ℚ) * dt = t + ((p + 1 : ℕ) : ℚ) * dt := by
              push_cast
              ring
            rw [heq]
            exact hT
          obtain ⟨k, hk, hex, hstk⟩ :=
            ih (t + dt) p (Nat.lt_of_succ_lt_succ hn) hT'
          refine ⟨k + 1, Nat.succ_le_succ hk, ?_, ?_⟩
          · rw [refineLoop_succ_false f az el way H dt hH m t hst, hex]
            congr 1
            push_cast
            ring
          · have heq : t + ((k + 1 : ℕ) : ℚ) * dt = t + dt + (k : ℚ) * dt := by
              push_cast
              ring
            rw [heq]
            exact hstk
        · refine ⟨0, Nat.zero_le n, ?_, ?_⟩
          · rw [refineLoop_succ_true f az el way H dt hH m t hst]
            congr 1
            simp
          · simpa using hst

/-- Whenever a refinement loop reports an exit, the step test holds at the
exit position (for a nonnegative horizon the loop guard is always true, so
the loop can only end by breaking on a successful test). -/
theorem refineLoop_exit_bracket (f : ℚ → ℚ × ℚ) (az el : Option ℚ)
    (way : String) (H dt : ℚ) (hH : 0 ≤ H) :
    ∀ fuel : ℕ, ∀ t u : ℚ, refineLoop f az el way H dt fuel t = .exit u →
      stepTest f az el way dt u = some true := by
  intro fuel
  induction fuel with
  | zero => intro t u h; simp [refineLoop] at h
  | succ m ih =>
      intro t u h
      rcases hst : stepTest f az el way dt t with _ | b
      · rw [refineLoop_succ_none f az el way H dt hH m t hst] at h
        exact ih (t + dt) u h
      · cases b
        · rw [refineLoop_succ_false f az el way H dt hH m t hst] at h
          exact ih (t + dt) u h
        · rw [refineLoop_succ_true f az el way H dt hH m t hst] at h
          have : t = u := RefOutcome.exit.inj h
          rw [← this]
          exact hst

/-- If the step test evaluates to False at every position the coarse loop
visits, the loop is still running after every number of iterations: the
guard `time <= time + TimeDelta(1, format='jd')` of line 245 never becomes
false, so the loop can never end. -/
theorem coarseLoop_running (f : ℚ → ℚ × ℚ) (az el : Option ℚ) (way : String) :
    ∀ fuel : ℕ, ∀ t0 : ℚ,
      (∀ n : ℕ, stepTest f az el way 1800 (t0 + (n : ℚ) * 1800) = some false) →
      coarseLoop f az el way fuel t0 = .running (t0 + (fuel : ℚ) * 1800) := by
  intro fuel
  induction fuel with
  | zero => intro t0 _; simp [coarseLoop]
  | succ m ih =>
      intro t0 h
      have h0 : stepTest f az el way 1800 t0 = some false := by
        have := h 0
        simpa using this
      rw [coarseLoop_succ_false f az el way m t0 h0]
      have h' : ∀ n : ℕ,
          stepTest f az el way 1800 (t0 + 1800 + (n : ℚ) * 1800) = some false := by
        intro n
        have heq : t0 + 1800 + (n : ℚ) * 1800 = t0 + ((n + 1 : ℕ) : ℚ) * 1800 := by
          push_cast
          ring
        rw [heq]
        exact h (n + 1)
      rw [ih (t0 + 1800) h']
      congr 1
      push_cast
      ring

/-- The azimuth branch of the step test never inspects `way`. -/
theorem stepTest_az_way (f : ℚ → ℚ × ℚ) (A : ℚ) (way way' : String)
    (dt t : ℚ) :
    stepTest f (some A) none way dt t = stepTest f (some A) none way' dt t := rfl

theorem coarseLoop_az_way (f : ℚ → ℚ × ℚ) (A : ℚ) (way way' : String) :
    ∀ fuel : ℕ, ∀ t : ℚ,
      coarseLoop f (some A) none way fuel t =
        coarseLoop f (some A) none way' fuel t := by
  intro fuel
  induction fuel with
  | zero => intro t; rfl
  | succ m ih =>
      intro t
      have hs : stepTest f (some A) none way 1800 t =
          stepTest f (some A) none way' 1800 t := rfl
      rcases hst : stepTest f (some A) none way' 1800 t with _ | b
      · rw [coarseLoop_succ_none f (some A) none way m t (hs.trans hst),
          coarseLoop_succ_none f (some A) none way' m t hst]
      · cases b
        · rw [coarseLoop_succ_false f (some A) none way m t (hs.trans hst),
            coarseLoop_succ_false f (some A) none way' m t hst]
          exact ih (t + 1800)
        · rw [coarseLoop_succ_true f (some A) none way m t (hs.trans hst),
            coarseLoop_succ_true f (some A) none way' m t hst]

theorem refineLoop_az_way (f : ℚ → ℚ × ℚ) (A : ℚ) (way way' : String)
    (H dt : ℚ) (hH : 0 ≤ H) :
    ∀ fuel : ℕ, ∀ t : ℚ,
      refineLoop f (some A) none way H dt fuel t =
        refineLoop f (some A) none way' H dt fuel t := by
  intro fuel
  induction fuel with
  | zero => intro t; rfl
  | succ m ih =>
      intro t
      have hs : stepTest f (some A) none way dt t =
          stepTest f (some A) none way' dt t := rfl
      rcases hst : stepTest f (some A) none way' dt t with _ | b
      · rw [refineLoop_succ_none f (some A) none way H dt hH m t (hs.trans hst),
          refineLoop_succ_none f (some A) none way' H dt hH m t hst]
        exact ih (t + dt)
      · cases b
        · rw [refineLoop_succ_false f (some A) none way H dt hH m t (hs.trans hst),
            refineLoop_succ_false f (some A) none way' H dt hH m t hst]
          exact ih (t + dt)
        · rw [refineLoop_succ_true f (some A) none way H dt hH m t (hs.trans hst),
            refineLoop_succ_true f (some A) none way' H dt hH m t hst]

/-- With an azimuth target the step test always evaluates (no ValueError). -/
theorem stepTest_az_ne_none (f : ℚ → ℚ × ℚ) (A : ℚ) (way : String)
    (dt t : ℚ) : stepTest f (some A) none way dt t ≠ none := by
  simp [stepTest]

/-- With an elevation target the step test always evaluates (no ValueError). -/
theorem stepTest_el_ne_none (f : ℚ → ℚ × ℚ) (E : ℚ) (way : String)
    (dt t : ℚ) : stepTest f none (some E) way dt t ≠ none := by
  simp only [stepTest]
  split_ifs <;> simp

/-- If the step test always evaluates, the coarse loop never raises the
ValueError of line 261. -/
theorem coarseLoop_ne_invalid (f : ℚ → ℚ × ℚ) (az el : Option ℚ)
    (way : String) (hne : ∀ t : ℚ, stepTest f az el way 1800 t ≠ none) :
    ∀ fuel : ℕ, ∀ t : ℚ, coarseLoop f az el way fuel t ≠ .invalid := by
  intro fuel
  induction fuel with
  | zero => intro t; simp [coarseLoop]
  | succ m ih =>
      intro t
      rcases hst : stepTest f az el way 1800 t with _ | b
      · exact absurd hst (hne t)
      · cases b
        · rw [coarseLoop_succ_false f az el way m t hst]
          exact ih (t + 1800)
        · rw [coarseLoop_succ_true f az el way m t hst]
          simp

/-- If the step test falls through to the else branch, the coarse loop
raises ValueError on its first iteration. -/
theorem coarseLoop_invalid_of_none (f : ℚ → ℚ × ℚ) (az el : Option ℚ)
    (way : String) (fuel : ℕ) (t : ℚ) (hf : 1 ≤ fuel)
    (hst : stepTest f az el way 1800 t = none) :
    coarseLoop f az el way fuel t = .invalid := by
  obtain ⟨m, rfl⟩ : ∃ m, fuel = m + 1 :=
    ⟨fuel - 1, (Nat.succ_pred_eq_of_pos hf).symm⟩
  exact coarseLoop_succ_none f az el way m t hst

/-- With a valid way string and a step test that always evaluates, the only
possible results of getTransit are a returned instant or a still-running
loop: no exception is raised. -/
theorem getTransit_ok_or_diverged (f : ℚ → ℚ × ℚ) (t0 : ℚ) (az el : Option ℚ)
    (way : String) (fuel : ℕ)
    (hw : lowerStr way = "rise" ∨ lowerStr way = "set")
    (hne : ∀ t : ℚ, stepTest f az el way 1800 t ≠ none) :
    ∃ u, getTransit f t0 az el way fuel = .ok u ∨
         getTransit f t0 az el way fuel = .diverged u := by
  cases hc : coarseLoop f az el way fuel t0 with
  | invalid => exact absurd hc (coarseLoop_ne_invalid f az el way hne fuel t0)
  | running t =>
      exact ⟨t, Or.inr (getTransit_coarse_running f t0 az el way fuel t hw hc)⟩
  | exit t1 =>
      cases hm : refineLoop f az el way 1800 300 fuel t1 with
      | running t =>
          exact ⟨t, Or.inr (getTransit_mid_running f t0 az el way fuel t1 t hw hc hm)⟩
      | exit t2 =>
          cases hf2 : refineLoop f az el way 300 5 fuel t2 with
          | running t =>
              exact ⟨t, Or.inr
                (getTransit_fine_running f t0 az el way fuel t1 t2 t hw hc hm hf2)⟩
          | exit t3 =>
              exact ⟨t3 + 5 / 2, Or.inl
                (getTransit_ok f t0 az el way fuel t1 t2 t3 hw hc hm hf2)⟩

/- ------------------------------------------------------------------ -/
/- Claims.                                                            -/
/- ------------------------------------------------------------------ -/

/-- C1.  The claim says that when the channel yields no crossing bracket,
getTransit's coarse pass terminates after at most 48 steps and fails with
CrossingNotFound.  The code does the opposite: the coarse loop guard
`while time <= time + TimeDelta(1, format='jd')` compares the mutated loop
variable against itself plus one day, so it is always true, no
CrossingNotFound error exists anywhere in the source, and when the step
test never succeeds the loop simply never ends.  This theorem exhibits the
divergence: for every query whose step test fails at every visited
position, after any number `fuel` of iterations the search is still
running (outcome `diverged`), 1800 s further along per iteration — it
never terminates, with or without an error. -/
theorem getTransit_no_crossing_never_terminates (f : ℚ → ℚ × ℚ)
    (az el : Option ℚ) (way : String) (t0 : ℚ)
    (hw : lowerStr way = "rise" ∨ lowerStr way = "set")
    (h : ∀ n : ℕ, stepTest f az el way 1800 (t0 + (n : ℚ) * 1800) = some false) :
    ∀ fuel : ℕ,
      getTransit f t0 az el way fuel = .diverged (t0 + (fuel : ℚ) * 1800) := by
  intro fuel
  exact getTransit_coarse_running f t0 az el way fuel _ hw
    (coarseLoop_running f az el way fuel t0 h)

/-- C1 witness: a source constantly 10° below the horizon, queried for the
el=0 rising crossing, is still being searched after the 48 coarse steps
that the claim says must already have produced a CrossingNotFound
failure. -/
theorem getTransit_no_crossing_never_terminates_witness :
    getTransit constLow 0 none (some 0) "rise" 48 =
      .diverged (0 + ((48 : ℕ) : ℚ) * 1800) := by
  refine getTransit_no_crossing_never_terminates constLow none (some 0) "rise" 0
    (Or.inl lowerStr_rise) ?_ 48
  intro n
  simp [stepTest, lowerStr_rise, constLow]

/-- C2.  Whenever the coarse pass breaks with a bracket [t1, t1+1800s]
(i.e. the step test holds at t1 with step 1800), the mid pass breaks at
some t2 with a bracket [t2, t2+300s] nested inside the coarse one, and the
fine pass breaks at some t3 with a bracket [t3, t3+5s] nested inside the
mid one; 60 iterations of fuel suffice for both refinement passes (the mid
pass breaks within 6 steps and the fine pass within 60).  In particular a
refinement pass can never fail to re-find a bracket inside its parent
bracket, so the defensive InternalSearchError case never arises. -/
theorem refinement_nested (f : ℚ → ℚ × ℚ) (az el : Option ℚ) (way : String)
    (fuel : ℕ) (t1 : ℚ)
    (hb : stepTest f az el way 1800 t1 = some true) (hf : 60 ≤ fuel) :
    ∃ t2 t3,
      refineLoop f az el way 1800 300 fuel t1 = .exit t2 ∧
      stepTest f az el way 300 t2 = some true ∧
      t1 ≤ t2 ∧ t2 + 300 ≤ t1 + 1800 ∧
      refineLoop f az el way 300 5 fuel t2 = .exit t3 ∧
      stepTest f az el way 5 t3 = some true ∧
      t2 ≤ t3 ∧ t3 + 5 ≤ t2 + 300 := by
  have hb6 : stepTest f az el way ((6 : ℕ) * 300) t1 = some true := by
    have e : (((6 : ℕ) : ℚ) * 300 : ℚ) = 1800 := by norm_num
    rw [e]
    exact hb
  obtain ⟨k, hk6, hstk⟩ :=
    stepTest_refine f az el way 300 6 (by norm_num) t1 hb6
  obtain ⟨k', hk', hexm, hstk'⟩ :=
    refineLoop_exits f az el way 1800 300 (by norm_num) fuel t1 k
      (lt_of_lt_of_le hk6 (le_trans (by norm_num) hf)) hstk
  have hk5 : ((k' : ℚ)) ≤ 5 := by
    have : k' < 6 := lt_of_le_of_lt hk' hk6
    exact_mod_cast Nat.le_of_lt_succ this
  have hb60 : stepTest f az el way ((60 : ℕ) * 5) (t1 + (k' : ℚ) * 300) = some true := by
    have e : (((60 : ℕ) : ℚ) * 5 : ℚ) = 300 := by norm_num
    rw [e]
    exact hstk'
  obtain ⟨j, hj60, hstj⟩ :=
    stepTest_refine f az el way 5 60 (by norm_num) (t1 + (k' : ℚ) * 300) hb60
  obtain ⟨j', hj', hexf, hstj'⟩ :=
    refineLoop_exits f az el way 300 5 (by norm_num) fuel (t1 + (k' : ℚ) * 300) j
      (lt_of_lt_of_le hj60 hf) hstj
  have hj59 : ((j' : ℚ)) ≤ 59 := by
    have : j' < 60 := lt_of_le_of_lt hj' hj60
    exact_mod_cast Nat.le_of_lt_succ this
  refine ⟨t1 + (k' : ℚ) * 300, t1 + (k' : ℚ) * 300 + (j' : ℚ) * 5,
    hexm, hstk', ?_, ?_, hexf, hstj', ?_, ?_⟩
  · have : (0 : ℚ) ≤ (k' : ℚ) * 300 := by positivity
    linarith
  · linarith
  · have : (0 : ℚ) ≤ (j' : ℚ) * 5 := by positivity
    linarith
  · linarith

/-- C2 witness: a linearly growing azimuth channel with target azimuth 0
and a coarse bracket at t1 = 0. -/
theorem refinement_nested_witness :
    ∃ t2 t3,
      refineLoop lin (some 0) none "rise" 1800 300 60 0 = .exit t2 ∧
      stepTest lin (some 0) none "rise" 300 t2 = some true ∧
      (0 : ℚ) ≤ t2 ∧ t2 + 300 ≤ 0 + 1800 ∧
      refineLoop lin (some 0) none "rise" 300 5 60 t2 = .exit t3 ∧
      stepTest lin (some 0) none "rise" 5 t3 = some true ∧
      t2 ≤ t3 ∧ t3 + 5 ≤ t2 + 300 :=
  refinement_nested lin (some 0) none "rise" 60 0
    (by simp [stepTest, lin]) (le_refl 60)

/-- C3 (amended).  With a valid way string and at least one loop iteration:
a query with both az and el set, or with neither set, raises the ValueError
of line 261 on the first coarse iteration (for every channel f, which shows
no evaluator call is consulted); a way string other than 'rise'/'set' is
rejected by the assertion of line 241 whatever the targets are; and a
well-formed query — exactly one target set, way valid — never raises
either error, including the combination of an azimuth target with
way='set', which the original claim said would be rejected. -/
theorem invalid_query_behaviour (f : ℚ → ℚ × ℚ) (t0 : ℚ) (way : String)
    (fuel : ℕ) (A E : ℚ)
    (hw : lowerStr way = "rise" ∨ lowerStr way = "set") (hf : 1 ≤ fuel) :
    (getTransit f t0 (some A) (some E) way fuel = .valueError ∧
     getTransit f t0 none none way fuel = .valueError) ∧
    (∀ way' : String, ¬(lowerStr way' = "rise" ∨ lowerStr way' = "set") →
      getTransit f t0 (some A) none way' fuel = .assertError) ∧
    (∃ u, getTransit f t0 (some A) none way fuel = .ok u ∨
          getTransit f t0 (some A) none way fuel = .diverged u) ∧
    (∃ u, getTransit f t0 none (some E) way fuel = .ok u ∨
          getTransit f t0 none (some E) way fuel = .diverged u) := by
  refine ⟨⟨?_, ?_⟩, ?_, ?_, ?_⟩
  · exact getTransit_invalid f t0 (some A) (some E) way fuel hw
      (coarseLoop_invalid_of_none f (some A) (some E) way fuel t0 hf
        (by simp [stepTest]))
  · exact getTransit_invalid f t0 none none way fuel hw
      (coarseLoop_invalid_of_none f none none way fuel t0 hf
        (by simp [stepTest]))
  · intro way' hw'
    exact getTransit_assert f t0 (some A) none way' fuel hw'
  · exact getTransit_ok_or_diverged f t0 (some A) none way fuel hw
      (fun t => stepTest_az_ne_none f A way 1800 t)
  · exact getTransit_ok_or_diverged f t0 none (some E) way fuel hw
      (fun t => stepTest_el_ne_none f E way 1800 t)

/-- C3 counterexample: a direction of 'set' together with an azimuth target
is not rejected — getTransit runs the search and returns an instant. -/
theorem azimuth_set_not_rejected :
    getTransit lin 0 (some 0) none "set" 1 = .ok (0 + 5 / 2) ∧
    getTransit lin 0 (some 0) none "set" 1 ≠ .valueError ∧
    getTransit lin 0 (some 0) none "set" 1 ≠ .assertError := by
  have h : getTransit lin 0 (some 0) none "set" 1 = .ok (0 + 5 / 2) :=
    getTransit_ok lin 0 (some 0) none "set" 1 0 0 0 (Or.inr lowerStr_set)
      (coarseLoop_succ_true lin (some 0) none "set" 0 0 (by simp [stepTest, lin]))
      (refineLoop_succ_true lin (some 0) none "set" 1800 300 (by norm_num) 0 0
        (by simp [stepTest, lin]))
      (refineLoop_succ_true lin (some 0) none "set" 300 5 (by norm_num) 0 0
        (by simp [stepTest, lin]))
  refine ⟨h, ?_, ?_⟩ <;> rw [h] <;> simp

/-- C3 witness: both-targets and neither-target queries raise ValueError,
with way='set' valid and one iteration of fuel. -/
theorem invalid_query_behaviour_witness :
    getTransit lin 0 (some 0) (some 0) "set" 1 = .valueError ∧
    getTransit lin 0 none none "set" 1 = .valueError :=
  (invalid_query_behaviour lin 0 "set" 1 0 0 (Or.inr lowerStr_set)
    (le_refl 1)).1

/-- C4.  The bracket-acceptance test applied at every step of every pass
(the same if/elif chain at lines 246-259, 267-280 and 286-299): for an
azimuth target A it accepts exactly when c1 ≤ A ≤ c2 (ascending only,
whatever `way` holds); for an elevation target E it accepts exactly when
c1 ≤ E ≤ c2 if way is 'rise' and exactly when c2 ≤ E ≤ c1 if way is
'set', where c1 = channel(t) and c2 = channel(t + dt). -/
theorem crossing_predicate_forms (f : ℚ → ℚ × ℚ) (way : String)
    (dt t A E : ℚ) :
    (stepTest f (some A) none way dt t = some true ↔
      (f t).1 ≤ A ∧ A ≤ (f (t + dt)).1) ∧
    (lowerStr way = "rise" →
      (stepTest f none (some E) way dt t = some true ↔
        (f t).2 ≤ E ∧ E ≤ (f (t + dt)).2)) ∧
    (lowerStr way = "set" →
      (stepTest f none (some E) way dt t = some true ↔
        (f (t + dt)).2 ≤ E ∧ E ≤ (f t).2)) := by
  refine ⟨?_, ?_, ?_⟩
  · simp [stepTest]
  · intro hr
    simp [stepTest, hr]
  · intro hs
    simp [stepTest, hs]

/-- C4 witness: the elevation rise and set forms of the test, each at a
concrete accepted pair. -/
theorem crossing_predicate_forms_witness :
    stepTest lin none (some 0) "rise" 1800 0 = some true ∧
    stepTest constLow none (some (-10)) "set" 1800 0 = some true :=
  ⟨((crossing_predicate_forms lin "rise" 1800 0 0 0).2.1 lowerStr_rise).mpr
      (by simp [lin]),
    ((crossing_predicate_forms constLow "set" 1800 0 0 (-10)).2.2
      lowerStr_set).mpr (by simp [constLow])⟩

/-- C5.  Every successful getTransit run returns t3 + 2.5 s where t3 is
the exit position of the fine pass and [t3, t3+5s] is a genuine fine
bracket (the step test holds there); consequently the returned instant is
within 2.5 s of any crossing instant lying in the fine bracket. -/
theorem transit_return_and_precision (f : ℚ → ℚ × ℚ) (az el : Option ℚ)
    (way : String) (fuel : ℕ) (t0 r : ℚ)
    (h : getTransit f t0 az el way fuel = .ok r) :
    ∃ t1 t2 t3,
      coarseLoop f az el way fuel t0 = .exit t1 ∧
      refineLoop f az el way 1800 300 fuel t1 = .exit t2 ∧
      refineLoop f az el way 300 5 fuel t2 = .exit t3 ∧
      stepTest f az el way 5 t3 = some true ∧
      r = t3 + 5 / 2 ∧
      ∀ c : ℚ, t3 ≤ c → c ≤ t3 + 5 → |r - c| ≤ 5 / 2 := by
  by_cases hw : lowerStr way = "rise" ∨ lowerStr way = "set"
  · cases hc : coarseLoop f az el way fuel t0 with
    | invalid =>
        rw [getTransit_invalid f t0 az el way fuel hw hc] at h
        exact TransitOutcome.noConfusion h
    | running t =>
        rw [getTransit_coarse_running f t0 az el way fuel t hw hc] at h
        exact TransitOutcome.noConfusion h
    | exit t1 =>
        cases hm : refineLoop f az el way 1800 300 fuel t1 with
        | running t =>
            rw [getTransit_mid_running f t0 az el way fuel t1 t hw hc hm] at h
            exact TransitOutcome.noConfusion h
        | exit t2 =>
            cases hfn : refineLoop f az el way 300 5 fuel t2 with
            | running t =>
                rw [getTransit_fine_running f t0 az el way fuel t1 t2 t hw hc
                  hm hfn] at h
                exact TransitOutcome.noConfusion h
            | exit t3 =>
                rw [getTransit_ok f t0 az el way fuel t1 t2 t3 hw hc hm hfn] at h
                have hr : r = t3 + 5 / 2 := (TransitOutcome.ok.inj h).symm
                refine ⟨t1, t2, t3, rfl, hm, hfn,
                  refineLoop_exit_bracket f az el way 300 5 (by norm_num) fuel
                    t2 t3 hfn, hr, ?_⟩
                intro c h1 h2
                rw [hr, abs_le]
                constructor <;> linarith
  · rw [getTransit_assert f t0 az el way fuel hw] at h
    exact TransitOutcome.noConfusion h

/-- C5 witness: a concrete successful elevation-rise query whose fine
bracket starts at 0 and whose returned instant is 2.5 s. -/
theorem transit_return_and_precision_witness :
    ∃ t1 t2 t3,
      coarseLoop lin none (some 0) "rise" 1 0 = .exit t1 ∧
      refineLoop lin none (some 0) "rise" 1800 300 1 t1 = .exit t2 ∧
      refineLoop lin none (some 0) "rise" 300 5 1 t2 = .exit t3 ∧
      stepTest lin none (some 0) "rise" 5 t3 = some true ∧
      (5 / 2 : ℚ) = t3 + 5 / 2 ∧
      ∀ c : ℚ, t3 ≤ c → c ≤ t3 + 5 → |(5 / 2 : ℚ) - c| ≤ 5 / 2 := by
  refine transit_return_and_precision lin none (some 0) "rise" 1 0 (5 / 2) ?_
  have h : getTransit lin 0 none (some 0) "rise" 1 = .ok (0 + 5 / 2) :=
    getTransit_ok lin 0 none (some 0) "rise" 1 0 0 0 (Or.inl lowerStr_rise)
      (coarseLoop_succ_true lin none (some 0) "rise" 0 0
        (by simp [stepTest, lowerStr_rise, lin]))
      (refineLoop_succ_true lin none (some 0) "rise" 1800 300 (by norm_num) 0 0
        (by simp [stepTest, lowerStr_rise, lin]))
      (refineLoop_succ_true lin none (some 0) "rise" 300 5 (by norm_num) 0 0
        (by simp [stepTest, lowerStr_rise, lin]))
  rw [h]
  norm_num

/-- C6.  The three wrappers are exactly getTransit with the fixed
parameters of the source (riseTime: el=0, way='rise'; setTime: el=0,
way='set'; meridianTime: az=180 with the default way='rise'); they add no
further logic. -/
theorem wrappers_are_specialisations (f : ℚ → ℚ × ℚ) (t0 : ℚ) (fuel : ℕ) :
    riseTime f t0 fuel = getTransit f t0 none (some 0) "rise" fuel ∧
    setTime f t0 fuel = getTransit f t0 none (some 0) "set" fuel ∧
    meridianTime f t0 fuel = getTransit f t0 (some 180) none "rise" fuel :=
  ⟨rfl, rfl, rfl⟩

/-- C7.  getTransit is a pure function of the channel, start instant,
targets, way string and iteration budget: two runs on equal inputs return
equal results (there is no hidden state or randomness in the embedded
search). -/
theorem getTransit_deterministic (f g : ℚ → ℚ × ℚ) (t0 s0 : ℚ)
    (az az' el el' : Option ℚ) (way way' : String) (fuel fuel' : ℕ)
    (hf : f = g) (ht : t0 = s0) (ha : az = az') (he : el = el')
    (hw : way = way') (hn : fuel = fuel') :
    getTransit f t0 az el way fuel = getTransit g s0 az' el' way' fuel' := by
  rw [hf, ht, ha, he, hw, hn]

/-- C7 witness: two identical concrete queries return the same outcome. -/
theorem getTransit_deterministic_witness :
    getTransit lin 0 (some 0) none "rise" 1 =
      getTransit lin 0 (some 0) none "rise" 1 :=
  getTransit_deterministic lin lin 0 0 (some 0) (some 0) none none
    "rise" "rise" 1 1 rfl rfl rfl rfl rfl rfl

/-- C8.  getTime maps 'tomorrow' to now + 1 day and 'yesterday' to
now - 1 day (whatever the unit argument, which is ignored for strings),
and maps a number x to the instant with Julian day x when unit is 'jd' or
defaulted, and to Julian day x + 2400000.5 (i.e. Modified Julian day x)
when unit is 'mjd'. -/
theorem getTime_keywords_and_numeric (now x : ℚ) (p : String → Option ℚ)
    (u : Option String) :
    getTime now p (.str "tomorrow") u = some (now + 1) ∧
    getTime now p (.str "yesterday") u = some (now - 1) ∧
    getTime now p (.num x) (some "jd") = some x ∧
    getTime now p (.num x) (some "mjd") = some (x + mjdOffset) ∧
    getTime now p (.num x) none = some x := by
  refine ⟨?_, ?_, ?_, ?_, ?_⟩ <;>
    simp [getTime, lowerStr_tomorrow, lowerStr_yesterday, lowerStr_jd,
      lowerStr_mjd]

/-- C9.  For every length-2 coordinate tuple with the default unit 'deg',
getSrc takes the tuple branch, skips the only assignment to ra/dec
(guarded by `if not unit.lower() == 'deg'`), and then reads the unbound
locals: a NameError, not a SkyCoord and not a resolution failure — for
every name resolver and every degree conversion. -/
theorem getSrc_pair_deg_nameError (resolveName : String → SrcResult)
    (degreesFn : ℚ × ℚ → ℚ × ℚ) (p : ℚ × ℚ) :
    getSrc resolveName degreesFn (.pair p) "deg" = .nameError ∧
    (∀ ra dec : ℚ,
      getSrc resolveName degreesFn (.pair p) "deg" ≠ .skyCoord ra dec) ∧
    getSrc resolveName degreesFn (.pair p) "deg" ≠ .resolutionError := by
  have h : getSrc resolveName degreesFn (.pair p) "deg" = .nameError := by
    simp [getSrc, lowerStr_deg]
  refine ⟨h, fun ra dec => ?_, ?_⟩ <;> rw [h] <;> simp

/-- C10.  An azimuth-target query never inspects the way argument: the
whole run of getTransit with way='rise' equals the run with way='set', for
every channel, start instant, azimuth target and fuel. -/
theorem azimuth_ignores_way (f : ℚ → ℚ × ℚ) (t0 A : ℚ) (fuel : ℕ) :
    getTransit f t0 (some A) none "rise" fuel =
      getTransit f t0 (some A) none "set" fuel := by
  have hwr : lowerStr "rise" = "rise" ∨ lowerStr "rise" = "set" :=
    Or.inl lowerStr_rise
  have hws : lowerStr "set" = "rise" ∨ lowerStr "set" = "set" :=
    Or.inr lowerStr_set
  cases hc : coarseLoop f (some A) none "set" fuel t0 with
  | invalid =>
      rw [getTransit_invalid f t0 (some A) none "rise" fuel hwr
          ((coarseLoop_az_way f A "rise" "set" fuel t0).trans hc),
        getTransit_invalid f t0 (some A) none "set" fuel hws hc]
  | running t =>
      rw [getTransit_coarse_running f t0 (some A) none "rise" fuel t hwr
          ((coarseLoop_az_way f A "rise" "set" fuel t0).trans hc),
        getTransit_coarse_running f t0 (some A) none "set" fuel t hws hc]
  | exit t1 =>
      have hcr : coarseLoop f (some A) none "rise" fuel t0 = .exit t1 :=
        (coarseLoop_az_way f A "rise" "set" fuel t0).trans hc
      cases hm : refineLoop f (some A) none "set" 1800 300 fuel t1 with
      | running t =>
          rw [getTransit_mid_running f t0 (some A) none "rise" fuel t1 t hwr hcr
              ((refineLoop_az_way f A "rise" "set" 1800 300 (by norm_num) fuel
                t1).trans hm),
            getTransit_mid_running f t0 (some A) none "set" fuel t1 t hws hc hm]
      | exit t2 =>
          have hmr : refineLoop f (some A) none "rise" 1800 300 fuel t1 =
              .exit t2 :=
            (refineLoop_az_way f A "rise" "set" 1800 300 (by norm_num) fuel
              t1).trans hm
          cases hfn : refineLoop f (some A) none "set" 300 5 fuel t2 with
          | running t =>
              rw [getTransit_fine_running f t0 (some A) none "rise" fuel t1 t2 t
                  hwr hcr hmr
                  ((refineLoop_az_way f A "rise" "set" 300 5 (by norm_num) fuel
                    t2).trans hfn),
                getTransit_fine_running f t0 (some A) none "set" fuel t1 t2 t
                  hws hc hm hfn]
          | exit t3 =>
              have hfr : refineLoop f (some A) none "rise" 300 5 fuel t2 =
                  .exit t3 :=
                (refineLoop_az_way f A "rise" "set" 300 5 (by norm_num) fuel
                  t2).trans hfn
              rw [getTransit_ok f t0 (some A) none "rise" fuel t1 t2 t3 hwr hcr
                  hmr hfr,
                getTransit_ok f t0 (some A) none "set" fuel t1 t2 t3 hws hc hm
                  hfn]

end Celespy
